import Mathlib

/-!
Shallow embedding of `src/object_detection_post_process.py` from the
YOLOv11-Hailo-Tracker repository: geometry utilities, the detection
selector, the IoU track matcher, the loitering state machine, and the
tracker-path orchestration of `draw_detections`.  Python floats are
modelled as rationals, Python ints as integers, Python dicts as ordered
association lists, and the `defaultdict` subscript read is modelled
explicitly (value plus possibly extended dictionary).
-/

/-- Python `int(q)` on a rational: truncation toward zero. -/
def pyInt (q : ℚ) : ℤ := Int.tdiv q.num (q.den : ℤ)

/-- Embedding of `denormalize_and_rm_pad`: each coordinate is scaled by
`size` and truncated to an integer (Python `int`), then the letterbox
padding is subtracted from odd-index coordinates when `input_width ≠ size`
and from even-index coordinates when `input_height ≠ size`.  The Python
loop mutates the list in place but reads each original element exactly
once, so it is a map over the original list. -/
def denormalize_and_rm_pad (box : List ℚ) (size : ℕ) (padding_length : ℕ)
    (input_height input_width : ℕ) : List ℚ :=
  box.enum.map (fun p =>
    let v : ℤ := pyInt (p.2 * (size : ℚ))
    let v := if input_width ≠ size ∧ p.1 % 2 ≠ 0 then v - (padding_length : ℤ) else v
    let v := if input_height ≠ size ∧ p.1 % 2 = 0 then v - (padding_length : ℤ) else v
    (v : ℚ))

/-- Indices of the labels belonging to the target label list, in label
order, as built by the `for idx, label in enumerate(labels)` loops of
`extract_detections` and `draw_detections`. -/
def target_class_indices (labels target_labels : List String) : List ℕ :=
  (labels.enum.filter (fun p => decide (p.2 ∈ target_labels))).map (fun p => p.1)

/-- Result dictionary of `extract_detections`. -/
structure DetectionsDict where
  detection_boxes : List (List ℚ)
  detection_classes : List ℕ
  detection_scores : List ℚ
  num_detections : ℕ
deriving DecidableEq

/-- Candidate pool built by the main loop of `extract_detections`: for each
class in the target index set, every raw detection whose score passes the
threshold, recorded as `(score, class_id, denormalized box)` in class-major
order.  A raw detection row is a list holding the box in positions 0-3 and
the score in position 4 (`det[:4]`, `det[4]`), read totally via
`take`/`getD`. -/
def detection_pool (img_height img_width : ℕ) (dets : List (List (List ℚ)))
    (score_thres : ℚ) (tci : List ℕ) : List (ℚ × ℕ × List ℚ) :=
  let size := max img_height img_width
  let padding_length := (max img_height img_width - min img_height img_width) / 2
  (dets.enum.filter (fun p => decide (p.1 ∈ tci))).flatMap
    (fun p => (p.2.filter (fun det => decide (score_thres ≤ det.getD 4 0))).map
      (fun det => (det.getD 4 0, p.1,
        denormalize_and_rm_pad (det.take 4) size padding_length img_height img_width)))

/-- Embedding of `extract_detections`: build the candidate pool over target
classes and passing scores, sort it by score descending (Python
`sort(reverse=True, key=...)`, a stable sort), truncate to `max_boxes`, and
return parallel lists.  `score_thres` and `max_boxes` are the configuration
values read from `config_data["visualization_params"]`, and `img_height`,
`img_width` come from `image.shape[:2]`. -/
def extract_detections (img_height img_width : ℕ) (dets : List (List (List ℚ)))
    (score_thres : ℚ) (max_boxes : ℕ) (labels : List String)
    (target_labels : Option (List String)) : DetectionsDict :=
  let tl := target_labels.getD ["person", "car"]
  let tci := target_class_indices labels tl
  let all_detections := detection_pool img_height img_width dets score_thres tci
  let sorted := all_detections.mergeSort (fun a b => decide (b.1 ≤ a.1))
  let top := sorted.take max_boxes
  { detection_boxes := top.map (fun t => t.2.2)
    detection_classes := top.map (fun t => t.2.1)
    detection_scores := top.map (fun t => t.1)
    num_detections := top.length }

/-- Embedding of `compute_iou`; the literal `1e-5` is `1 / 100000`. -/
def compute_iou (boxA boxB : List ℚ) : ℚ :=
  let xA := max (boxA.getD 0 0) (boxB.getD 0 0)
  let yA := max (boxA.getD 1 0) (boxB.getD 1 0)
  let xB := min (boxA.getD 2 0) (boxB.getD 2 0)
  let yB := min (boxA.getD 3 0) (boxB.getD 3 0)
  let inter := max 0 (xB - xA) * max 0 (yB - yA)
  let areaA := max (1 / 100000) ((boxA.getD 2 0 - boxA.getD 0 0) * (boxA.getD 3 0 - boxA.getD 1 0))
  let areaB := max (1 / 100000) ((boxB.getD 2 0 - boxB.getD 0 0) * (boxB.getD 3 0 - boxB.getD 1 0))
  inter / (areaA + areaB - inter + 1 / 100000)

/-- Loop of `find_best_matching_detection_index`: running maximum IoU
(initially 0) and best index (initially -1), updated only on strict
improvement. -/
def bestMatchLoop (track_box : List ℚ) (boxes : List (List ℚ)) (i : ℕ)
    (best_iou : ℚ) (best_idx : ℤ) : ℚ × ℤ :=
  match boxes with
  | [] => (best_iou, best_idx)
  | det_box :: rest =>
    if best_iou < compute_iou track_box det_box then
      bestMatchLoop track_box rest (i + 1) (compute_iou track_box det_box) (i : ℤ)
    else
      bestMatchLoop track_box rest (i + 1) best_iou best_idx

/-- Embedding of `find_best_matching_detection_index`. -/
def find_best_matching_detection_index (track_box : List ℚ)
    (detection_boxes : List (List ℚ)) : Option ℤ :=
  let r := bestMatchLoop track_box detection_boxes 0 0 (-1)
  if r.2 ≠ -1 then some r.2 else none

/-- First-match lookup in an ordered association list (Python dict read of
an existing key finds its unique entry; states built by the operations
below never hold duplicate keys). -/
def dictLookup (d : List (ℤ × ℤ)) (k : ℤ) : Option ℤ :=
  match d with
  | [] => none
  | p :: rest => if p.1 = k then some p.2 else dictLookup rest k

/-- Python `k in d` membership test. -/
def dictContains (d : List (ℤ × ℤ)) (k : ℤ) : Bool := (dictLookup d k).isSome

/-- Python `d[k] = v`: replaces the value in place when the key exists,
otherwise appends the new key at the end (dict insertion order). -/
def dictSet (d : List (ℤ × ℤ)) (k v : ℤ) : List (ℤ × ℤ) :=
  match d with
  | [] => [(k, v)]
  | p :: rest => if p.1 = k then (k, v) :: rest else p :: dictSet rest k v

/-- Python `del d[k]`, preserving the order of the remaining entries. -/
def dictDel (d : List (ℤ × ℤ)) (k : ℤ) : List (ℤ × ℤ) :=
  d.filter (fun p => decide (p.1 ≠ k))

/-- `defaultdict(int)` subscript read: the stored value when the key is
present, otherwise the default 0 together with the dictionary extended by
the new key. -/
def ddGetItem (d : List (ℤ × ℤ)) (k : ℤ) : ℤ × List (ℤ × ℤ) :=
  match dictLookup d k with
  | some v => (v, d)
  | none => (0, d ++ [(k, 0)])

/-- State of `LoiteringDetectionManager`: the fields set by `__init__`. -/
structure LoiteringDetectionManager where
  loitering_threshold : ℚ
  frame_threshold : ℚ
  track_start_frames : List (ℤ × ℤ)
  current_frame : ℤ
deriving DecidableEq

/-- `LoiteringDetectionManager.__init__(loitering_threshold, fps)`. -/
def LoiteringDetectionManager.init (loitering_threshold fps : ℚ) :
    LoiteringDetectionManager :=
  { loitering_threshold := loitering_threshold
    frame_threshold := loitering_threshold * fps
    track_start_frames := []
    current_frame := 0 }

/-- `update_frame_count`: increment the current frame number. -/
def LoiteringDetectionManager.update_frame_count (m : LoiteringDetectionManager) :
    LoiteringDetectionManager :=
  { m with current_frame := m.current_frame + 1 }

/-- `update_track`: record the current frame as the start frame when the
track id is not already tracked. -/
def LoiteringDetectionManager.update_track (m : LoiteringDetectionManager)
    (track_id : ℤ) : LoiteringDetectionManager :=
  if ¬ dictContains m.track_start_frames track_id then
    { m with track_start_frames := dictSet m.track_start_frames track_id m.current_frame }
  else m

/-- `is_loitering`: the boolean result together with the resulting manager;
the `defaultdict` subscript read is modelled explicitly so that the
no-insertion behaviour is a theorem rather than an assumption. -/
def LoiteringDetectionManager.is_loitering (m : LoiteringDetectionManager)
    (track_id : ℤ) : Bool × LoiteringDetectionManager :=
  if ¬ dictContains m.track_start_frames track_id then (false, m)
  else
    let r := ddGetItem m.track_start_frames track_id
    let frames_present : ℤ := m.current_frame - r.1
    (decide (m.frame_threshold < (frames_present : ℚ)),
     { m with track_start_frames := r.2 })

/-- `cleanup_missing_tracks`: collect the recorded keys absent from the
active set, then delete each. -/
def LoiteringDetectionManager.cleanup_missing_tracks
    (m : LoiteringDetectionManager) (current_track_ids : List ℤ) :
    LoiteringDetectionManager :=
  let ids_to_remove := (m.track_start_frames.map (fun p => p.1)).filter
    (fun k => decide (k ∉ current_track_ids))
  { m with track_start_frames :=
      ids_to_remove.foldl (fun d k => dictDel d k) m.track_start_frames }

/-- External tracker output: the fields of a returned track that
`draw_detections` reads (`track_id`, `tlbr`, `score`). -/
structure STrack where
  track_id : ℤ
  tlbr : List ℚ
  score : ℚ
deriving DecidableEq

/-- Calls `draw_detections` makes on the loitering manager, in program
order. -/
inductive LEvent where
  | update_frame_count : LEvent
  | update_track : ℤ → LEvent
  | is_loitering : ℤ → LEvent
  | cleanup_missing_tracks : List ℤ → LEvent
deriving DecidableEq

/-- Indices kept by the target-class filter loop at the top of
`draw_detections` (`for i in range(num_detections): if classes[i] in
target_class_indices`). -/
def draw_filtered_indices (detections : DetectionsDict) (tci : List ℕ) : List ℕ :=
  (List.range detections.num_detections).filter
    (fun i => decide (detections.detection_classes.getD i 0 ∈ tci))

/-- Boxes kept by the target-class filter loop of `draw_detections`. -/
def draw_filtered_boxes (detections : DetectionsDict) (tci : List ℕ) : List (List ℚ) :=
  (draw_filtered_indices detections tci).map
    (fun i => detections.detection_boxes.getD i [])

/-- Scores kept by the target-class filter loop of `draw_detections`. -/
def draw_filtered_scores (detections : DetectionsDict) (tci : List ℕ) : List ℚ :=
  (draw_filtered_indices detections tci).map
    (fun i => detections.detection_scores.getD i 0)

/-- Class ids kept by the target-class filter loop of `draw_detections`. -/
def draw_filtered_classes (detections : DetectionsDict) (tci : List ℕ) : List ℕ :=
  (draw_filtered_indices detections tci).map
    (fun i => detections.detection_classes.getD i 0)

/-- Rows `[*box, score]` handed to the external tracker by
`draw_detections`. -/
def dets_for_tracker (detections : DetectionsDict) (tci : List ℕ) : List (List ℚ) :=
  (List.range (draw_filtered_boxes detections tci).length).map
    (fun idx => (draw_filtered_boxes detections tci).getD idx [] ++
      [(draw_filtered_scores detections tci).getD idx 0])

/-- Body of the `for track in online_targets` loop of `draw_detections`,
restricted to the state it can change: the loitering manager, the trace of
calls on it, and the accumulated set of matched track ids.  Unmatched
tracks are skipped entirely; matched tracks are added to the set, and when
loitering detection is on and the track is relevant (not person-only, or
matched to the person class) and a manager is present, `update_track` and
`is_loitering` are called.  Drawing and speed estimation touch none of this
state. -/
def trackStep (boxes : List (List ℚ)) (classes : List ℕ)
    (loitering_detection : Bool) (enable_person_only : Bool)
    (person_class_index : ℤ)
    (st : Option LoiteringDetectionManager × List LEvent × List ℤ)
    (track : STrack) :
    Option LoiteringDetectionManager × List LEvent × List ℤ :=
  match find_best_matching_detection_index track.tlbr boxes with
  | none => st
  | some bi =>
    let ids := if track.track_id ∈ st.2.2 then st.2.2 else st.2.2 ++ [track.track_id]
    if loitering_detection then
      let is_person := person_class_index ≠ -1 ∧
        ((classes.getD bi.toNat 0 : ℤ) = person_class_index)
      let is_relevant := ¬ enable_person_only ∨ is_person
      if is_relevant then
        match st.1 with
        | some m =>
          let m1 := m.update_track track.track_id
          let r := m1.is_loitering track.track_id
          (some r.2,
           st.2.1 ++ [LEvent.update_track track.track_id, LEvent.is_loitering track.track_id],
           ids)
        | none => (st.1, st.2.1, ids)
      else (st.1, st.2.1, ids)
    else (st.1, st.2.1, ids)

/-- Embedding of the state-relevant behaviour of `draw_detections`: the
returned loitering manager and the ordered trace of calls made on it.  The
external tracker is a black-box function from the detection rows to a track
list.  Rendering (`draw_detection`, `id_to_color`) and speed estimation are
omitted: they neither read nor write the loitering manager and do not
affect control flow. -/
def draw_detections (detections : DetectionsDict) (labels : List String)
    (tracker : Option (List (List ℚ) → List STrack))
    (target_labels : Option (List String)) (loitering_detection : Bool)
    (loitering_manager : Option LoiteringDetectionManager)
    (enable_person_only : Bool) (person_class_index : ℤ) :
    Option LoiteringDetectionManager × List LEvent :=
  let tl := target_labels.getD ["person", "car"]
  let tci := target_class_indices labels tl
  let boxes := draw_filtered_boxes detections tci
  let classes := draw_filtered_classes detections tci
  match tracker with
  | none => (loitering_manager, [])
  | some tr =>
    let dets := dets_for_tracker detections tci
    if dets.isEmpty then (loitering_manager, [])
    else
      let online_targets := tr dets
      let st0 : Option LoiteringDetectionManager × List LEvent × List ℤ :=
        match loitering_manager with
        | some m => (some m.update_frame_count, [LEvent.update_frame_count], [])
        | none => (none, [], [])
      let st := online_targets.foldl
        (trackStep boxes classes loitering_detection enable_person_only person_class_index) st0
      match st.1 with
      | some m =>
        (some (m.cleanup_missing_tracks st.2.2),
         st.2.1 ++ [LEvent.cleanup_missing_tracks st.2.2])
      | none => (st.1, st.2.1)

/-- One processed frame as the tracker path of `draw_detections` drives the
loitering manager: advance the frame counter, observe each matched track id
in order (the interleaved `is_loitering` calls leave the state unchanged),
then reconcile with the active set. -/
def loiterFrame (m : LoiteringDetectionManager) (observed : List ℤ)
    (active : List ℤ) : LoiteringDetectionManager :=
  (observed.foldl (fun acc t => acc.update_track t)
    m.update_frame_count).cleanup_missing_tracks active

/-! ### Dictionary lemmas -/

theorem dictLookup_eq_none_iff (d : List (ℤ × ℤ)) (k : ℤ) :
    dictLookup d k = none ↔ k ∉ d.map Prod.fst := by
  induction d with
  | nil => simp [dictLookup]
  | cons p rest ih =>
    simp only [dictLookup, List.map_cons, List.mem_cons]
    by_cases h : p.1 = k
    · simp [h]
    · simp [h, ih, Ne.symm h]

theorem dictLookup_mem {d : List (ℤ × ℤ)} {k v : ℤ}
    (h : dictLookup d k = some v) : (k, v) ∈ d := by
  induction d with
  | nil => exact Option.noConfusion h
  | cons p rest ih =>
    by_cases hp : p.1 = k
    · simp only [dictLookup, if_pos hp] at h
      have hv : p.2 = v := Option.some.inj h
      have hpv : p = (k, v) := Prod.ext hp hv
      rw [← hpv]
      exact List.mem_cons_self p rest
    · simp only [dictLookup, if_neg hp] at h
      exact List.mem_cons_of_mem _ (ih h)

theorem mem_keys_of_dictLookup {d : List (ℤ × ℤ)} {k : ℤ} {v : ℤ}
    (h : dictLookup d k = some v) : k ∈ d.map Prod.fst := by
  by_contra hmem
  rw [← dictLookup_eq_none_iff] at hmem
  rw [hmem] at h
  exact Option.noConfusion h

theorem dictContains_eq_true_iff (d : List (ℤ × ℤ)) (k : ℤ) :
    dictContains d k = true ↔ ∃ v, dictLookup d k = some v := by
  unfold dictContains
  cases h : dictLookup d k <;> simp [h]

theorem dictLookup_dictSet_self (d : List (ℤ × ℤ)) (k v : ℤ) :
    dictLookup (dictSet d k v) k = some v := by
  induction d with
  | nil => simp [dictSet, dictLookup]
  | cons p rest ih =>
    by_cases h : p.1 = k <;> simp [dictSet, dictLookup, h, ih]

theorem dictLookup_dictSet_ne (d : List (ℤ × ℤ)) (k v k' : ℤ) (h : k' ≠ k) :
    dictLookup (dictSet d k v) k' = dictLookup d k' := by
  induction d with
  | nil => simp [dictSet, dictLookup, Ne.symm h]
  | cons p rest ih =>
    simp only [dictSet]
    by_cases hp : p.1 = k
    · rw [if_pos hp]
      simp only [dictLookup]
      rw [if_neg (Ne.symm h), if_neg (fun hh : p.1 = k' => Ne.symm h (hp.symm.trans hh))]
    · rw [if_neg hp]
      simp only [dictLookup, ih]

theorem dictLookup_filter_key (q : ℤ → Bool) (d : List (ℤ × ℤ)) (k : ℤ) :
    dictLookup (d.filter (fun p => q p.1)) k =
      if q k then dictLookup d k else none := by
  induction d with
  | nil => cases h : q k <;> simp [dictLookup, h]
  | cons p rest ih =>
    by_cases hpk : p.1 = k
    · subst hpk
      cases h : q p.1 <;> simp [List.filter, dictLookup, h, ih]
    · cases h : q p.1 <;> simp [List.filter, dictLookup, h, hpk, ih]

theorem foldl_dictDel (l : List ℤ) (d : List (ℤ × ℤ)) :
    l.foldl (fun d k => dictDel d k) d = d.filter (fun p => decide (p.1 ∉ l)) := by
  induction l generalizing d with
  | nil => simp
  | cons k ks ih =>
    rw [List.foldl_cons, ih, dictDel, List.filter_filter]
    apply List.filter_congr
    intro p _
    by_cases h1 : p.1 = k <;> by_cases h2 : p.1 ∈ ks <;> simp [h1, h2]

/-! ### Loitering manager lemmas -/

theorem cleanup_lookup (m : LoiteringDetectionManager) (ids : List ℤ) (tid : ℤ) :
    dictLookup (m.cleanup_missing_tracks ids).track_start_frames tid =
      if tid ∈ ids then dictLookup m.track_start_frames tid else none := by
  unfold LoiteringDetectionManager.cleanup_missing_tracks
  simp only
  rw [foldl_dictDel]
  rw [dictLookup_filter_key
    (fun k => decide (k ∉ (m.track_start_frames.map Prod.fst).filter
      (fun k => decide (k ∉ ids)))) m.track_start_frames tid]
  by_cases hid : tid ∈ ids
  · have h1 : (tid ∉ (m.track_start_frames.map Prod.fst).filter
        (fun k => decide (k ∉ ids))) := by
      intro hc
      rcases List.mem_filter.mp hc with ⟨_, hdec⟩
      exact (of_decide_eq_true hdec) hid
    rw [if_pos (decide_eq_true h1), if_pos hid]
  · rw [if_neg hid]
    cases hl : dictLookup m.track_start_frames tid with
    | none =>
      split <;> simp [hl]
    | some v =>
      have hkeys : tid ∈ m.track_start_frames.map Prod.fst :=
        mem_keys_of_dictLookup hl
      have h2 : tid ∈ (m.track_start_frames.map Prod.fst).filter
          (fun k => decide (k ∉ ids)) :=
        List.mem_filter.mpr ⟨hkeys, decide_eq_true hid⟩
      rw [if_neg (by simp only [decide_eq_true_iff]; exact fun hc => hc h2)]

theorem cleanup_fields (m : LoiteringDetectionManager) (ids : List ℤ) :
    (m.cleanup_missing_tracks ids).current_frame = m.current_frame ∧
    (m.cleanup_missing_tracks ids).frame_threshold = m.frame_threshold ∧
    (m.cleanup_missing_tracks ids).loitering_threshold = m.loitering_threshold :=
  ⟨rfl, rfl, rfl⟩

theorem update_track_fields (m : LoiteringDetectionManager) (t : ℤ) :
    (m.update_track t).current_frame = m.current_frame ∧
    (m.update_track t).frame_threshold = m.frame_threshold ∧
    (m.update_track t).loitering_threshold = m.loitering_threshold := by
  unfold LoiteringDetectionManager.update_track
  split <;> exact ⟨rfl, rfl, rfl⟩

theorem update_track_lookup_of_some {m : LoiteringDetectionManager} {k s : ℤ}
    (h : dictLookup m.track_start_frames k = some s) (t : ℤ) :
    dictLookup (m.update_track t).track_start_frames k = some s := by
  unfold LoiteringDetectionManager.update_track
  split
  · rename_i hc
    by_cases hkt : t = k
    · subst hkt
      exact absurd ((dictContains_eq_true_iff _ _).mpr ⟨s, h⟩)
        (by simpa using hc)
    · simpa [dictLookup_dictSet_ne _ _ _ _ (Ne.symm hkt)] using h
  · exact h

theorem ddGetItem_of_lookup {d : List (ℤ × ℤ)} {k v : ℤ}
    (h : dictLookup d k = some v) : ddGetItem d k = (v, d) := by
  unfold ddGetItem
  rw [h]

theorem update_track_lookup_of_none {m : LoiteringDetectionManager} {tid : ℤ}
    (h : dictLookup m.track_start_frames tid = none) :
    dictLookup (m.update_track tid).track_start_frames tid = some m.current_frame := by
  unfold LoiteringDetectionManager.update_track
  rw [if_pos (by simp [dictContains, h])]
  exact dictLookup_dictSet_self _ _ _

theorem foldl_update_track_lookup_of_some {m : LoiteringDetectionManager}
    {k s : ℤ} (h : dictLookup m.track_start_frames k = some s) (obs : List ℤ) :
    dictLookup ((obs.foldl (fun acc t => acc.update_track t) m).track_start_frames) k
      = some s := by
  induction obs generalizing m with
  | nil => exact h
  | cons t ts ih => exact ih (update_track_lookup_of_some h t)

theorem foldl_update_track_fields (m : LoiteringDetectionManager) (obs : List ℤ) :
    ((obs.foldl (fun acc t => acc.update_track t) m).current_frame = m.current_frame)
    ∧ ((obs.foldl (fun acc t => acc.update_track t) m).frame_threshold
        = m.frame_threshold) := by
  induction obs generalizing m with
  | nil => exact ⟨rfl, rfl⟩
  | cons t ts ih =>
    simp only [List.foldl_cons]
    exact ⟨((ih _).1).trans (update_track_fields m t).1,
      ((ih _).2).trans (update_track_fields m t).2.1⟩

theorem is_loitering_none {m : LoiteringDetectionManager} {tid : ℤ}
    (h : dictLookup m.track_start_frames tid = none) :
    m.is_loitering tid = (false, m) := by
  unfold LoiteringDetectionManager.is_loitering
  rw [if_pos (by simp [dictContains, h])]

theorem is_loitering_fst_of_some {m : LoiteringDetectionManager} {tid s : ℤ}
    (h : dictLookup m.track_start_frames tid = some s) :
    (m.is_loitering tid).1 =
      decide (m.frame_threshold < ((m.current_frame - s : ℤ) : ℚ)) := by
  unfold LoiteringDetectionManager.is_loitering
  rw [if_neg (by simp [dictContains, h])]
  simp only [ddGetItem_of_lookup h]

theorem is_loitering_snd (m : LoiteringDetectionManager) (tid : ℤ) :
    (m.is_loitering tid).2 = m := by
  unfold LoiteringDetectionManager.is_loitering
  split
  · rfl
  · rename_i hc
    obtain ⟨v, hv⟩ := (dictContains_eq_true_iff _ _).mp (not_not.mp hc)
    simp only [ddGetItem_of_lookup hv]

theorem loiterFrame_preserves {m : LoiteringDetectionManager} {tid : ℤ}
    (obs active : List ℤ) (hact : tid ∈ active)
    (h : (m.is_loitering tid).1 = true) :
    ((loiterFrame m obs active).is_loitering tid).1 = true := by
  cases hl : dictLookup m.track_start_frames tid with
  | none => rw [is_loitering_none hl] at h; exact absurd h (by simp)
  | some s =>
    rw [is_loitering_fst_of_some hl] at h
    have hlt : m.frame_threshold < ((m.current_frame - s : ℤ) : ℚ) :=
      of_decide_eq_true h
    have h1 : dictLookup m.update_frame_count.track_start_frames tid = some s := hl
    have h2 : dictLookup ((obs.foldl (fun acc t => acc.update_track t)
        m.update_frame_count).track_start_frames) tid = some s :=
      foldl_update_track_lookup_of_some h1 obs
    have h3 : dictLookup (loiterFrame m obs active).track_start_frames tid = some s := by
      unfold loiterFrame
      rw [cleanup_lookup, if_pos hact]
      exact h2
    rw [is_loitering_fst_of_some h3]
    have hth : (loiterFrame m obs active).frame_threshold = m.frame_threshold := by
      unfold loiterFrame
      rw [(cleanup_fields _ _).2.1]
      exact (foldl_update_track_fields _ _).2
    have hcf : (loiterFrame m obs active).current_frame = m.current_frame + 1 := by
      unfold loiterFrame
      rw [(cleanup_fields _ _).1]
      exact (foldl_update_track_fields _ _).1
    rw [hth, hcf]
    apply decide_eq_true
    have hcast : ((m.current_frame + 1 - s : ℤ) : ℚ) =
        ((m.current_frame - s : ℤ) : ℚ) + 1 := by push_cast; ring
    rw [hcast]
    linarith

/-- C3: `is_loitering(track_id)` is true iff `track_id` has a recorded start
frame `s` and `current_frame - s` strictly exceeds
`loitering_threshold * fps` (the stored `frame_threshold`); for an unknown
`track_id` it returns false rather than failing. -/
theorem C3_is_loitering_iff (thr fps : ℚ) (m : LoiteringDetectionManager)
    (tid : ℤ) (hm : m.frame_threshold = thr * fps) :
    ((m.is_loitering tid).1 = true ↔
      ∃ s, dictLookup m.track_start_frames tid = some s ∧
        thr * fps < ((m.current_frame - s : ℤ) : ℚ))
    ∧ (dictLookup m.track_start_frames tid = none →
        (m.is_loitering tid).1 = false) := by
  constructor
  · cases hl : dictLookup m.track_start_frames tid with
    | none =>
      rw [is_loitering_none hl]
      simp [hl]
    | some s =>
      rw [is_loitering_fst_of_some hl, hm]
      simp [hl, decide_eq_true_iff]
  · intro hl
    rw [is_loitering_none hl]

/-- Witness for C3: a freshly initialized manager reports no loitering for
an unknown track id. -/
theorem C3_witness :
    ((LoiteringDetectionManager.init 10 30).is_loitering 7).1 = false :=
  (C3_is_loitering_iff 10 30 (LoiteringDetectionManager.init 10 30) 7 rfl).2 rfl

/-- C6: `cleanup_missing_tracks` removes exactly the recorded track ids
absent from the supplied active set (a recorded id in the set keeps its
start frame, an id outside loses its entry), changes no other field of the
state, and a subsequent `update_track` of a removed id records the current
frame as a fresh start frame. -/
theorem C6_cleanup_exact (m : LoiteringDetectionManager) (ids : List ℤ) (tid : ℤ) :
    (dictLookup (m.cleanup_missing_tracks ids).track_start_frames tid =
      if tid ∈ ids then dictLookup m.track_start_frames tid else none)
    ∧ (m.cleanup_missing_tracks ids).current_frame = m.current_frame
    ∧ (m.cleanup_missing_tracks ids).frame_threshold = m.frame_threshold
    ∧ (m.cleanup_missing_tracks ids).loitering_threshold = m.loitering_threshold
    ∧ (dictLookup m.track_start_frames tid = none →
        dictLookup (m.update_track tid).track_start_frames tid
          = some m.current_frame) :=
  ⟨cleanup_lookup m ids tid, rfl, rfl, rfl, fun h => update_track_lookup_of_none h⟩

/-- Witness for C6: reconciling with an empty active set erases a recorded
track, and re-observing it records the new current frame. -/
theorem C6_witness :
    (dictLookup ((⟨10, 300, [(4, 2)], 6⟩ :
        LoiteringDetectionManager).cleanup_missing_tracks []).track_start_frames 4
      = if (4 : ℤ) ∈ ([] : List ℤ) then
          dictLookup (⟨10, 300, [(4, 2)], 6⟩ :
            LoiteringDetectionManager).track_start_frames 4 else none)
    ∧ dictLookup ((⟨10, 300, [], 6⟩ :
        LoiteringDetectionManager).update_track 4).track_start_frames 4 = some 6 :=
  ⟨(C6_cleanup_exact ⟨10, 300, [(4, 2)], 6⟩ [] 4).1,
   (C6_cleanup_exact ⟨10, 300, [], 6⟩ [] 4).2.2.2.2 rfl⟩

/-- C7: once a track id has a recorded start frame, `update_track` leaves
the manager completely unchanged (the recorded start frame is never
modified while the entry exists). -/
theorem C7_update_track_idempotent (m : LoiteringDetectionManager) (tid s : ℤ)
    (h : dictLookup m.track_start_frames tid = some s) :
    m.update_track tid = m := by
  unfold LoiteringDetectionManager.update_track
  rw [if_neg (by simp [dictContains, h])]

/-- Witness for C7: re-observing an already tracked id is a no-op. -/
theorem C7_witness :
    LoiteringDetectionManager.update_track ⟨10, 300, [(4, 2)], 5⟩ 4
      = ⟨10, 300, [(4, 2)], 5⟩ :=
  C7_update_track_idempotent ⟨10, 300, [(4, 2)], 5⟩ 4 2 rfl

/-- C8: immediately after the first `update_track` of an untracked id,
`is_loitering` is false (zero frames elapsed, given a non-negative frame
threshold); and over any sequence of frames in which the id stays observed
and in every active set while the frame counter advances, `is_loitering`
never reverts from true to false. -/
theorem C8_loitering_monotone (m : LoiteringDetectionManager) (tid : ℤ) :
    (dictLookup m.track_start_frames tid = none →
      0 ≤ m.frame_threshold →
      ((m.update_track tid).is_loitering tid).1 = false)
    ∧ ∀ frames : List (List ℤ × List ℤ),
      (∀ f ∈ frames, tid ∈ f.1 ∧ tid ∈ f.2) →
      (m.is_loitering tid).1 = true →
      ((frames.foldl (fun acc f => loiterFrame acc f.1 f.2) m).is_loitering tid).1
        = true := by
  constructor
  · intro hnone hth
    have hset : dictLookup (m.update_track tid).track_start_frames tid
        = some m.current_frame := update_track_lookup_of_none hnone
    rw [is_loitering_fst_of_some hset, (update_track_fields m tid).2.1,
      (update_track_fields m tid).1]
    apply decide_eq_false
    have hz : ((m.current_frame - m.current_frame : ℤ) : ℚ) = 0 := by
      push_cast; ring
    rw [hz]
    exact not_lt.mpr hth
  · intro frames
    induction frames generalizing m with
    | nil => exact fun _ h => h
    | cons f fs ih =>
      intro hf h
      simp only [List.foldl_cons]
      exact ih _ (fun g hg => hf g (List.mem_cons_of_mem _ hg))
        (loiterFrame_preserves f.1 f.2 (hf f (List.mem_cons_self _ _)).2 h)

/-- Witness for C8: a fresh observation is not loitering, and an
already-loitering track stays loitering across a further observed frame. -/
theorem C8_witness :
    ((LoiteringDetectionManager.update_track ⟨0, 0, [], 0⟩ 3).is_loitering 3).1 = false
    ∧ (([([5], [5])].foldl (fun acc f => loiterFrame acc f.1 f.2)
        (⟨0, 0, [(5, 0)], 1⟩ : LoiteringDetectionManager)).is_loitering 5).1 = true :=
  ⟨(C8_loitering_monotone ⟨0, 0, [], 0⟩ 3).1 rfl (le_refl 0),
   (C8_loitering_monotone ⟨0, 0, [(5, 0)], 1⟩ 5).2 [([5], [5])] (by simp)
     (by norm_num [LoiteringDetectionManager.is_loitering, dictContains,
       dictLookup, ddGetItem])⟩

/-- C10: `is_loitering` is a pure query: it leaves `track_start_frames` and
`current_frame` (indeed the whole manager) unchanged for every track id,
known or unknown — the membership test guards the `defaultdict` access, so
querying an unknown id never inserts an entry. -/
theorem C10_is_loitering_pure (m : LoiteringDetectionManager) (tid : ℤ) :
    (m.is_loitering tid).2.track_start_frames = m.track_start_frames
    ∧ (m.is_loitering tid).2.current_frame = m.current_frame
    ∧ (m.is_loitering tid).2 = m := by
  have h := is_loitering_snd m tid
  exact ⟨by rw [h], by rw [h], h⟩

/-- Witness for C10: querying an unknown id on a fresh manager leaves the
manager untouched. -/
theorem C10_witness :
    ((LoiteringDetectionManager.init 10 30).is_loitering 3).2
      = LoiteringDetectionManager.init 10 30 :=
  (C10_is_loitering_pure (LoiteringDetectionManager.init 10 30) 3).2.2

/-! ### IoU lemmas -/

theorem prod_max_le_area (w h : ℚ) :
    max 0 w * max 0 h ≤ max (1 / 100000) (w * h) := by
  by_cases hw : 0 ≤ w
  · by_cases hh : 0 ≤ h
    · rw [max_eq_right hw, max_eq_right hh]
      exact le_max_right _ _
    · rw [max_eq_left (le_of_not_le hh), mul_zero]
      exact le_trans (by norm_num) (le_max_left _ _)
  · rw [max_eq_left (le_of_not_le hw), zero_mul]
    exact le_trans (by norm_num) (le_max_left _ _)

theorem inter_le_areaA (a0 a1 a2 a3 b0 b1 b2 b3 : ℚ) :
    max 0 (min a2 b2 - max a0 b0) * max 0 (min a3 b3 - max a1 b1) ≤
      max (1 / 100000) ((a2 - a0) * (a3 - a1)) := by
  have hx : max 0 (min a2 b2 - max a0 b0) ≤ max 0 (a2 - a0) :=
    max_le_max le_rfl (by linarith [min_le_left a2 b2, le_max_left a0 b0])
  have hy : max 0 (min a3 b3 - max a1 b1) ≤ max 0 (a3 - a1) :=
    max_le_max le_rfl (by linarith [min_le_left a3 b3, le_max_left a1 b1])
  calc max 0 (min a2 b2 - max a0 b0) * max 0 (min a3 b3 - max a1 b1)
      ≤ max 0 (a2 - a0) * max 0 (a3 - a1) :=
        mul_le_mul hx hy (le_max_left _ _) (le_trans (le_max_left _ _) hx)
    _ ≤ max (1 / 100000) ((a2 - a0) * (a3 - a1)) := prod_max_le_area _ _

theorem inter_le_areaB (a0 a1 a2 a3 b0 b1 b2 b3 : ℚ) :
    max 0 (min a2 b2 - max a0 b0) * max 0 (min a3 b3 - max a1 b1) ≤
      max (1 / 100000) ((b2 - b0) * (b3 - b1)) := by
  have hx : max 0 (min a2 b2 - max a0 b0) ≤ max 0 (b2 - b0) :=
    max_le_max le_rfl (by linarith [min_le_right a2 b2, le_max_right a0 b0])
  have hy : max 0 (min a3 b3 - max a1 b1) ≤ max 0 (b3 - b1) :=
    max_le_max le_rfl (by linarith [min_le_right a3 b3, le_max_right a1 b1])
  calc max 0 (min a2 b2 - max a0 b0) * max 0 (min a3 b3 - max a1 b1)
      ≤ max 0 (b2 - b0) * max 0 (b3 - b1) :=
        mul_le_mul hx hy (le_max_left _ _) (le_trans (le_max_left _ _) hx)
    _ ≤ max (1 / 100000) ((b2 - b0) * (b3 - b1)) := prod_max_le_area _ _

theorem compute_iou_def (A B : List ℚ) :
    compute_iou A B =
      max 0 (min (A.getD 2 0) (B.getD 2 0) - max (A.getD 0 0) (B.getD 0 0)) *
        max 0 (min (A.getD 3 0) (B.getD 3 0) - max (A.getD 1 0) (B.getD 1 0)) /
      (max (1 / 100000) ((A.getD 2 0 - A.getD 0 0) * (A.getD 3 0 - A.getD 1 0)) +
       max (1 / 100000) ((B.getD 2 0 - B.getD 0 0) * (B.getD 3 0 - B.getD 1 0)) -
       max 0 (min (A.getD 2 0) (B.getD 2 0) - max (A.getD 0 0) (B.getD 0 0)) *
         max 0 (min (A.getD 3 0) (B.getD 3 0) - max (A.getD 1 0) (B.getD 1 0)) +
       1 / 100000) := rfl

theorem compute_iou_den_pos (A B : List ℚ) :
    0 < max (1 / 100000) ((A.getD 2 0 - A.getD 0 0) * (A.getD 3 0 - A.getD 1 0)) +
       max (1 / 100000) ((B.getD 2 0 - B.getD 0 0) * (B.getD 3 0 - B.getD 1 0)) -
       max 0 (min (A.getD 2 0) (B.getD 2 0) - max (A.getD 0 0) (B.getD 0 0)) *
         max 0 (min (A.getD 3 0) (B.getD 3 0) - max (A.getD 1 0) (B.getD 1 0)) +
       1 / 100000 := by
  have h1 := inter_le_areaA (A.getD 0 0) (A.getD 1 0) (A.getD 2 0) (A.getD 3 0)
    (B.getD 0 0) (B.getD 1 0) (B.getD 2 0) (B.getD 3 0)
  have h2 : (1 / 100000 : ℚ) ≤
      max (1 / 100000) ((B.getD 2 0 - B.getD 0 0) * (B.getD 3 0 - B.getD 1 0)) :=
    le_max_left _ _
  linarith

theorem compute_iou_nonneg (A B : List ℚ) : 0 ≤ compute_iou A B := by
  rw [compute_iou_def]
  exact div_nonneg (mul_nonneg (le_max_left _ _) (le_max_left _ _))
    (le_of_lt (compute_iou_den_pos A B))

theorem compute_iou_le_one (A B : List ℚ) : compute_iou A B ≤ 1 := by
  rw [compute_iou_def, div_le_one (compute_iou_den_pos A B)]
  have h1 := inter_le_areaA (A.getD 0 0) (A.getD 1 0) (A.getD 2 0) (A.getD 3 0)
    (B.getD 0 0) (B.getD 1 0) (B.getD 2 0) (B.getD 3 0)
  have h2 := inter_le_areaB (A.getD 0 0) (A.getD 1 0) (A.getD 2 0) (A.getD 3 0)
    (B.getD 0 0) (B.getD 1 0) (B.getD 2 0) (B.getD 3 0)
  linarith

theorem compute_iou_self (A : List ℚ) (hw : 0 < A.getD 2 0 - A.getD 0 0)
    (hh : 0 < A.getD 3 0 - A.getD 1 0)
    (ha : 1 / 100000 ≤ (A.getD 2 0 - A.getD 0 0) * (A.getD 3 0 - A.getD 1 0)) :
    compute_iou A A =
      ((A.getD 2 0 - A.getD 0 0) * (A.getD 3 0 - A.getD 1 0)) /
        ((A.getD 2 0 - A.getD 0 0) * (A.getD 3 0 - A.getD 1 0) + 1 / 100000) := by
  rw [compute_iou_def]
  rw [min_self, min_self, max_self, max_self]
  rw [max_eq_right hw.le, max_eq_right hh.le, max_eq_right ha]
  congr 1
  ring

/-- C9 (amended): `compute_iou` always lies in [0,1] (the per-box area
floors and the extra `1e-5` in the denominator keep the denominator
strictly positive); zero or negative overlap on either axis yields exactly
0; and for a box `A` with strictly positive width and height whose raw area
is at least the `1e-5` floor, `compute_iou(A,A) = area / (area + 1e-5)`,
which is at least `1 - 1e-5` once the area is at least 1.  The original
claim's "`compute_iou(A,A) ≈ 1.0` for any non-degenerate box" fails for
positive-area boxes below the `1e-5` floor (see the counterexample). -/
theorem C9_compute_iou_bounds (A B : List ℚ) :
    (0 ≤ compute_iou A B ∧ compute_iou A B ≤ 1)
    ∧ ((min (A.getD 2 0) (B.getD 2 0) - max (A.getD 0 0) (B.getD 0 0) ≤ 0 ∨
        min (A.getD 3 0) (B.getD 3 0) - max (A.getD 1 0) (B.getD 1 0) ≤ 0) →
       compute_iou A B = 0)
    ∧ (0 < A.getD 2 0 - A.getD 0 0 → 0 < A.getD 3 0 - A.getD 1 0 →
       1 / 100000 ≤ (A.getD 2 0 - A.getD 0 0) * (A.getD 3 0 - A.getD 1 0) →
       compute_iou A A =
         ((A.getD 2 0 - A.getD 0 0) * (A.getD 3 0 - A.getD 1 0)) /
           ((A.getD 2 0 - A.getD 0 0) * (A.getD 3 0 - A.getD 1 0) + 1 / 100000)
       ∧ (1 ≤ (A.getD 2 0 - A.getD 0 0) * (A.getD 3 0 - A.getD 1 0) →
          1 - 1 / 100000 ≤ compute_iou A A)) := by
  refine ⟨⟨compute_iou_nonneg A B, compute_iou_le_one A B⟩, ?_, ?_⟩
  · intro hov
    rw [compute_iou_def]
    rcases hov with h | h
    · rw [max_eq_left h, zero_mul, zero_div]
    · rw [max_eq_left h, mul_zero, zero_div]
  · intro hw hh ha
    refine ⟨compute_iou_self A hw hh ha, ?_⟩
    intro h1
    rw [compute_iou_self A hw hh ha]
    rw [le_div_iff₀ (by linarith)]
    nlinarith

/-- Witness for C9: two disjoint unit boxes have IoU 0, and a 10-by-10 box
has self-IoU within 1e-5 of 1. -/
theorem C9_witness :
    compute_iou [0, 0, 1, 1] [5, 5, 6, 6] = 0
    ∧ 1 - 1 / 100000 ≤ compute_iou [0, 0, 10, 10] [0, 0, 10, 10] := by
  constructor
  · exact (C9_compute_iou_bounds [0, 0, 1, 1] [5, 5, 6, 6]).2.1
      (Or.inl (by norm_num))
  · exact ((C9_compute_iou_bounds [0, 0, 10, 10] [0, 0, 10, 10]).2.2
      (by norm_num) (by norm_num) (by norm_num)).2 (by norm_num)

/-- Counterexample for C9 as stated: the box `[0, 0, 0.001, 0.001]` is
non-degenerate (strictly positive width and height), yet its self-IoU is
1/29, nowhere near 1: its raw area 1e-6 lies below the 1e-5 per-box floor,
so the floored areas dominate the union. -/
theorem C9_counterexample :
    (0 < (1 / 1000 : ℚ) - 0 ∧ 0 < (1 / 1000 : ℚ) - 0)
    ∧ compute_iou [0, 0, 1 / 1000, 1 / 1000] [0, 0, 1 / 1000, 1 / 1000] = 1 / 29
    ∧ compute_iou [0, 0, 1 / 1000, 1 / 1000] [0, 0, 1 / 1000, 1 / 1000] < 1 / 2 := by
  have h : compute_iou [0, 0, 1 / 1000, 1 / 1000] [0, 0, 1 / 1000, 1 / 1000]
      = 1 / 29 := by
    simp [compute_iou]
    norm_num
  exact ⟨by norm_num, h, by rw [h]; norm_num⟩

/-! ### Track matcher lemmas -/

theorem bestMatchLoop_spec (tb : List ℚ) (l : List (List ℚ)) :
    ∀ (i : ℕ) (b : ℚ) (idx : ℤ),
    ((∀ d ∈ l, compute_iou tb d ≤ b) → bestMatchLoop tb l i b idx = (b, idx))
    ∧ ((∃ d ∈ l, b < compute_iou tb d) →
        ∃ k : ℕ, k < l.length ∧
          (bestMatchLoop tb l i b idx).2 = (i : ℤ) + (k : ℤ) ∧
          (bestMatchLoop tb l i b idx).1 = compute_iou tb (l.getD k []) ∧
          b < (bestMatchLoop tb l i b idx).1 ∧
          (∀ d ∈ l, compute_iou tb d ≤ (bestMatchLoop tb l i b idx).1) ∧
          (∀ j, j < k →
            compute_iou tb (l.getD j []) < (bestMatchLoop tb l i b idx).1)) := by
  induction l with
  | nil =>
    intro i b idx
    exact ⟨fun _ => rfl, fun h => absurd h (by simp)⟩
  | cons d rest ih =>
    intro i b idx
    by_cases hlt : b < compute_iou tb d
    · have hstep : bestMatchLoop tb (d :: rest) i b idx
          = bestMatchLoop tb rest (i + 1) (compute_iou tb d) (i : ℤ) := by
        simp only [bestMatchLoop, if_pos hlt]
      constructor
      · intro hall
        exact absurd (hall d (List.mem_cons_self d rest)) (not_le.mpr hlt)
      · intro _
        by_cases hrest : ∃ d' ∈ rest, compute_iou tb d < compute_iou tb d'
        · obtain ⟨k', hk', hidx, hval, hbv, hmax, hfirst⟩ :=
            (ih (i + 1) (compute_iou tb d) (i : ℤ)).2 hrest
          refine ⟨k' + 1, by simpa using Nat.succ_lt_succ hk', ?_, ?_, ?_, ?_, ?_⟩
          · rw [hstep, hidx]; push_cast; ring
          · rw [hstep, hval, List.getD_cons_succ]
          · rw [hstep]; exact lt_trans hlt hbv
          · intro d' hd'
            rw [hstep]
            rcases List.mem_cons.mp hd' with rfl | hmem
            · exact le_of_lt hbv
            · exact hmax d' hmem
          · intro j hj
            rw [hstep]
            cases j with
            | zero => simpa using hbv
            | succ j' =>
              rw [List.getD_cons_succ]
              exact hfirst j' (Nat.lt_of_succ_lt_succ hj)
        · push_neg at hrest
          have hres : bestMatchLoop tb rest (i + 1) (compute_iou tb d) (i : ℤ)
              = (compute_iou tb d, (i : ℤ)) :=
            (ih (i + 1) (compute_iou tb d) (i : ℤ)).1 hrest
          refine ⟨0, by simp, ?_, ?_, ?_, ?_, ?_⟩
          · rw [hstep, hres]; simp
          · rw [hstep, hres]; simp
          · rw [hstep, hres]; exact hlt
          · intro d' hd'
            rw [hstep, hres]
            rcases List.mem_cons.mp hd' with rfl | hmem
            · exact le_rfl
            · exact hrest d' hmem
          · intro j hj
            exact absurd hj (Nat.not_lt_zero j)
    · have hstep : bestMatchLoop tb (d :: rest) i b idx
          = bestMatchLoop tb rest (i + 1) b idx := by
        simp only [bestMatchLoop, if_neg hlt]
      constructor
      · intro hall
        rw [hstep]
        exact (ih (i + 1) b idx).1 (fun e he => hall e (List.mem_cons_of_mem d he))
      · rintro ⟨d', hd', hgt⟩
        have hmem : d' ∈ rest := by
          rcases List.mem_cons.mp hd' with rfl | hmem
          · exact absurd hgt hlt
          · exact hmem
        obtain ⟨k', hk', hidx, hval, hbv, hmax, hfirst⟩ :=
          (ih (i + 1) b idx).2 ⟨d', hmem, hgt⟩
        refine ⟨k' + 1, by simpa using Nat.succ_lt_succ hk', ?_, ?_, ?_, ?_, ?_⟩
        · rw [hstep, hidx]; push_cast; ring
        · rw [hstep, hval, List.getD_cons_succ]
        · rw [hstep]; exact hbv
        · intro e he
          rw [hstep]
          rcases List.mem_cons.mp he with rfl | hm
          · exact le_trans (not_lt.mp hlt) (le_of_lt hbv)
          · exact hmax e hm
        · intro j hj
          rw [hstep]
          cases j with
          | zero =>
            rw [List.getD_cons_zero]
            exact lt_of_le_of_lt (not_lt.mp hlt) hbv
          | succ j' =>
            rw [List.getD_cons_succ]
            exact hfirst j' (Nat.lt_of_succ_lt_succ hj)

theorem find_best_def (tb : List ℚ) (dets : List (List ℚ)) :
    find_best_matching_detection_index tb dets =
      if (bestMatchLoop tb dets 0 0 (-1)).2 ≠ -1 then
        some (bestMatchLoop tb dets 0 0 (-1)).2
      else none := rfl

/-- C2: the track matcher returns `None` exactly when every detection has
IoU 0 with the track box (in particular for an empty detection list, since
the IoU is never negative); when some detection has strictly positive IoU
it returns the first index achieving the maximal IoU: the returned index
attains the maximum, and every earlier index is strictly below it. -/
theorem C2_track_matcher (tb : List ℚ) (dets : List (List ℚ)) :
    ((∀ d ∈ dets, compute_iou tb d = 0) →
      find_best_matching_detection_index tb dets = none)
    ∧ ((∃ d ∈ dets, 0 < compute_iou tb d) →
      ∃ k : ℕ, k < dets.length ∧
        find_best_matching_detection_index tb dets = some (k : ℤ) ∧
        0 < compute_iou tb (dets.getD k []) ∧
        (∀ d ∈ dets, compute_iou tb d ≤ compute_iou tb (dets.getD k [])) ∧
        (∀ j, j < k →
          compute_iou tb (dets.getD j []) < compute_iou tb (dets.getD k []))) := by
  constructor
  · intro hall
    have h := (bestMatchLoop_spec tb dets 0 0 (-1)).1
      (fun d hd => le_of_eq (hall d hd))
    rw [find_best_def, h]
    simp
  · intro hex
    obtain ⟨k, hk, hidx, hval, hb, hmax, hfirst⟩ :=
      (bestMatchLoop_spec tb dets 0 0 (-1)).2 hex
    refine ⟨k, hk, ?_, ?_, ?_, ?_⟩
    · rw [find_best_def, if_pos (by rw [hidx]; omega), hidx]
      norm_num
    · rw [← hval]; exact hb
    · intro d hd
      rw [← hval]; exact hmax d hd
    · intro j hj
      rw [← hval]; exact hfirst j hj

/-- Witness for C2: a track box overlapping no detection yields no match,
and with a positive-IoU detection present some index is returned. -/
theorem C2_witness :
    find_best_matching_detection_index [10, 10, 12, 12] [[0, 0, 2, 2]] = none
    ∧ ∃ k : ℕ, find_best_matching_detection_index [0, 0, 2, 2]
        [[50, 50, 60, 60], [0, 0, 2, 2]] = some (k : ℤ) := by
  constructor
  · apply (C2_track_matcher [10, 10, 12, 12] [[0, 0, 2, 2]]).1
    intro d hd
    rw [List.mem_singleton] at hd
    subst hd
    simp [compute_iou]
    norm_num
  · obtain ⟨k, _, heq, _⟩ := (C2_track_matcher [0, 0, 2, 2]
      [[50, 50, 60, 60], [0, 0, 2, 2]]).2
      ⟨[0, 0, 2, 2], by simp, by simp [compute_iou]; norm_num⟩
    exact ⟨k, heq⟩

/-! ### Detection selector lemmas -/

theorem detection_pool_mem {img_height img_width : ℕ}
    {dets : List (List (List ℚ))} {score_thres : ℚ} {tci : List ℕ}
    {x : ℚ × ℕ × List ℚ}
    (hx : x ∈ detection_pool img_height img_width dets score_thres tci) :
    score_thres ≤ x.1 ∧ x.2.1 ∈ tci := by
  unfold detection_pool at hx
  simp only [List.mem_flatMap, List.mem_filter, List.mem_map,
    decide_eq_true_eq] at hx
  obtain ⟨p, ⟨_, hp_tci⟩, det, ⟨_, hdet_thr⟩, hfx⟩ := hx
  rw [← hfx]
  exact ⟨hdet_thr, hp_tci⟩

theorem extract_detections_def (img_height img_width : ℕ)
    (dets : List (List (List ℚ))) (score_thres : ℚ) (max_boxes : ℕ)
    (labels : List String) (target_labels : Option (List String)) :
    extract_detections img_height img_width dets score_thres max_boxes labels
        target_labels =
      { detection_boxes :=
          (((detection_pool img_height img_width dets score_thres
              (target_class_indices labels
                (target_labels.getD ["person", "car"]))).mergeSort
            (fun a b => decide (b.1 ≤ a.1))).take max_boxes).map (fun t => t.2.2)
        detection_classes :=
          (((detection_pool img_height img_width dets score_thres
              (target_class_indices labels
                (target_labels.getD ["person", "car"]))).mergeSort
            (fun a b => decide (b.1 ≤ a.1))).take max_boxes).map (fun t => t.2.1)
        detection_scores :=
          (((detection_pool img_height img_width dets score_thres
              (target_class_indices labels
                (target_labels.getD ["person", "car"]))).mergeSort
            (fun a b => decide (b.1 ≤ a.1))).take max_boxes).map (fun t => t.1)
        num_detections :=
          (((detection_pool img_height img_width dets score_thres
              (target_class_indices labels
                (target_labels.getD ["person", "car"]))).mergeSort
            (fun a b => decide (b.1 ≤ a.1))).take max_boxes).length } := rfl

theorem mem_top_mem_pool {pool : List (ℚ × ℕ × List ℚ)} {max_boxes : ℕ}
    {x : ℚ × ℕ × List ℚ}
    (hx : x ∈ ((pool.mergeSort (fun a b => decide (b.1 ≤ a.1))).take max_boxes)) :
    x ∈ pool :=
  (List.mergeSort_perm pool _).subset ((List.take_sublist _ _).subset hx)

/-- C1: the detection selector returns parallel lists of common length
`num_detections`, at most `max_boxes` long; every returned score passes the
threshold, every returned class id lies in the target class index set
(computed from `labels` and the — possibly defaulted — `target_labels`), so
a non-target detection is never selected regardless of its score; and the
returned scores are sorted in descending order. -/
theorem C1_extract_detections (img_height img_width : ℕ)
    (dets : List (List (List ℚ))) (score_thres : ℚ) (max_boxes : ℕ)
    (labels : List String) (target_labels : Option (List String)) :
    ((extract_detections img_height img_width dets score_thres max_boxes labels
        target_labels).num_detections ≤ max_boxes
    ∧ (extract_detections img_height img_width dets score_thres max_boxes labels
        target_labels).detection_boxes.length =
      (extract_detections img_height img_width dets score_thres max_boxes labels
        target_labels).num_detections
    ∧ (extract_detections img_height img_width dets score_thres max_boxes labels
        target_labels).detection_classes.length =
      (extract_detections img_height img_width dets score_thres max_boxes labels
        target_labels).num_detections
    ∧ (extract_detections img_height img_width dets score_thres max_boxes labels
        target_labels).detection_scores.length =
      (extract_detections img_height img_width dets score_thres max_boxes labels
        target_labels).num_detections)
    ∧ (∀ s ∈ (extract_detections img_height img_width dets score_thres max_boxes
        labels target_labels).detection_scores, score_thres ≤ s)
    ∧ (∀ c ∈ (extract_detections img_height img_width dets score_thres max_boxes
        labels target_labels).detection_classes,
        c ∈ target_class_indices labels (target_labels.getD ["person", "car"]))
    ∧ List.Sorted (fun a b : ℚ => b ≤ a)
        (extract_detections img_height img_width dets score_thres max_boxes
          labels target_labels).detection_scores := by
  rw [extract_detections_def]
  refine ⟨⟨?_, ?_, ?_, ?_⟩, ?_, ?_, ?_⟩
  · simp [List.length_take]
  · simp
  · simp
  · simp
  · intro s hs
    obtain ⟨x, hx, rfl⟩ := List.mem_map.mp hs
    exact (detection_pool_mem (mem_top_mem_pool hx)).1
  · intro c hc
    obtain ⟨x, hx, rfl⟩ := List.mem_map.mp hc
    exact (detection_pool_mem (mem_top_mem_pool hx)).2
  · have hpair : List.Pairwise
        (fun a b : ℚ × ℕ × List ℚ => decide (b.1 ≤ a.1) = true)
        ((detection_pool img_height img_width dets score_thres
          (target_class_indices labels
            (target_labels.getD ["person", "car"]))).mergeSort
          (fun a b => decide (b.1 ≤ a.1))) :=
      List.sorted_mergeSort
        (fun a b c hab hbc => by
          simp only [decide_eq_true_eq] at *
          exact le_trans hbc hab)
        (fun a b => by rcases le_total a.1 b.1 with h | h <;> simp [h])
        (detection_pool img_height img_width dets score_thres
          (target_class_indices labels (target_labels.getD ["person", "car"])))
    have htake := hpair.sublist (List.take_sublist max_boxes _)
    show List.Pairwise (fun a b : ℚ => b ≤ a) _
    exact htake.map (fun t : ℚ × ℕ × List ℚ => t.1)
      (fun a b h => of_decide_eq_true h)

/-- Witness for C1: a concrete selector run obeys the size bound. -/
theorem C1_witness :
    (extract_detections 480 640 [[[0, 0, 1 / 2, 1 / 2, 9 / 10]]] (1 / 2) 50
      ["person"] none).num_detections ≤ 50 :=
  (C1_extract_detections 480 640 [[[0, 0, 1 / 2, 1 / 2, 9 / 10]]] (1 / 2) 50
    ["person"] none).1.1

/-! ### Orchestrator lemmas -/

theorem trackStep_cases (boxes : List (List ℚ)) (classes : List ℕ)
    (ld epo : Bool) (pci : ℤ) (m : LoiteringDetectionManager)
    (evs : List LEvent) (ids : List ℤ) (t : STrack) :
    (find_best_matching_detection_index t.tlbr boxes = none ∧
      trackStep boxes classes ld epo pci (some m, evs, ids) t = (some m, evs, ids))
    ∨ (find_best_matching_detection_index t.tlbr boxes ≠ none ∧
       ∃ (m' : LoiteringDetectionManager) (extra : List LEvent),
         trackStep boxes classes ld epo pci (some m, evs, ids) t
           = (some m', evs ++ extra,
              if t.track_id ∈ ids then ids else ids ++ [t.track_id])
         ∧ (∀ e ∈ extra, (∃ i, e = LEvent.update_track i) ∨
             (∃ i, e = LEvent.is_loitering i))
         ∧ m'.current_frame = m.current_frame
         ∧ m'.frame_threshold = m.frame_threshold) := by
  cases hb : find_best_matching_detection_index t.tlbr boxes with
  | none =>
    left
    refine ⟨rfl, ?_⟩
    unfold trackStep
    rw [hb]
  | some bi =>
    right
    refine ⟨by simp, ?_⟩
    unfold trackStep
    rw [hb]
    dsimp only
    cases ld with
    | false =>
      refine ⟨m, [], by simp, by simp, rfl, rfl⟩
    | true =>
      rw [if_pos rfl]
      by_cases hrel : ¬ epo = true ∨ (pci ≠ -1 ∧ ((classes.getD bi.toNat 0 : ℤ) = pci))
      · rw [if_pos hrel]
        refine ⟨m.update_track t.track_id,
          [LEvent.update_track t.track_id, LEvent.is_loitering t.track_id],
          ?_, ?_, (update_track_fields m t.track_id).1,
          (update_track_fields m t.track_id).2.1⟩
        · rw [is_loitering_snd]
        · intro e he
          rcases List.mem_cons.mp he with rfl | he2
          · exact Or.inl ⟨t.track_id, rfl⟩
          · rw [List.mem_singleton] at he2
            subst he2
            exact Or.inr ⟨t.track_id, rfl⟩
      · rw [if_neg hrel]
        refine ⟨m, [], by simp, by simp, rfl, rfl⟩

theorem trackStep_foldl_spec (boxes : List (List ℚ)) (classes : List ℕ)
    (ld epo : Bool) (pci : ℤ) (targets : List STrack) :
    ∀ (m : LoiteringDetectionManager) (evs : List LEvent) (ids : List ℤ),
    ∃ (m' : LoiteringDetectionManager) (extra : List LEvent) (ids' : List ℤ),
      targets.foldl (trackStep boxes classes ld epo pci) (some m, evs, ids)
        = (some m', evs ++ extra, ids')
      ∧ (∀ e ∈ extra, (∃ i, e = LEvent.update_track i) ∨
          (∃ i, e = LEvent.is_loitering i))
      ∧ m'.current_frame = m.current_frame
      ∧ m'.frame_threshold = m.frame_threshold
      ∧ (∀ x : ℤ, x ∈ ids' ↔ x ∈ ids ∨ ∃ t ∈ targets, t.track_id = x ∧
          find_best_matching_detection_index t.tlbr boxes ≠ none) := by
  induction targets with
  | nil =>
    intro m evs ids
    exact ⟨m, [], ids, by simp, by simp, rfl, rfl, by simp⟩
  | cons t ts ih =>
    intro m evs ids
    rcases trackStep_cases boxes classes ld epo pci m evs ids t with
      ⟨hnone, hstep⟩ | ⟨hfbne, m1, extra1, hstep, hev1, hcf1, hft1⟩
    · obtain ⟨m', extra, ids', hfold, hev, hcf, hft, hmem⟩ := ih m evs ids
      refine ⟨m', extra, ids', ?_, hev, hcf, hft, ?_⟩
      · rw [List.foldl_cons, hstep, hfold]
      · intro x
        rw [hmem x]
        constructor
        · rintro (hx | ⟨t', ht', hname, hfb⟩)
          · exact Or.inl hx
          · exact Or.inr ⟨t', List.mem_cons_of_mem t ht', hname, hfb⟩
        · rintro (hx | ⟨t', ht', hname, hfb⟩)
          · exact Or.inl hx
          · rcases List.mem_cons.mp ht' with rfl | hmem2
            · exact absurd hnone hfb
            · exact Or.inr ⟨t', hmem2, hname, hfb⟩
    · obtain ⟨m', extra, ids', hfold, hev, hcf, hft, hmem⟩ :=
        ih m1 (evs ++ extra1) (if t.track_id ∈ ids then ids else ids ++ [t.track_id])
      refine ⟨m', extra1 ++ extra, ids', ?_, ?_, ?_, ?_, ?_⟩
      · rw [List.foldl_cons, hstep, hfold, List.append_assoc]
      · intro e he
        rcases List.mem_append.mp he with h1 | h2
        · exact hev1 e h1
        · exact hev e h2
      · rw [hcf, hcf1]
      · rw [hft, hft1]
      · intro x
        rw [hmem x]
        by_cases hidt : t.track_id ∈ ids
        · rw [if_pos hidt]
          constructor
          · rintro (hx | ⟨t', ht', hname, hfb⟩)
            · exact Or.inl hx
            · exact Or.inr ⟨t', List.mem_cons_of_mem t ht', hname, hfb⟩
          · rintro (hx | ⟨t', ht', hname, hfb⟩)
            · exact Or.inl hx
            · rcases List.mem_cons.mp ht' with rfl | hmem2
              · exact Or.inl (hname ▸ hidt)
              · exact Or.inr ⟨t', hmem2, hname, hfb⟩
        · rw [if_neg hidt]
          constructor
          · rintro (hx | ⟨t', ht', hname, hfb⟩)
            · rcases List.mem_append.mp hx with h1 | h2
              · exact Or.inl h1
              · rw [List.mem_singleton] at h2
                exact Or.inr ⟨t, List.mem_cons_self t ts, h2.symm, hfbne⟩
            · exact Or.inr ⟨t', List.mem_cons_of_mem t ht', hname, hfb⟩
          · rintro (hx | ⟨t', ht', hname, hfb⟩)
            · exact Or.inl (List.mem_append.mpr (Or.inl hx))
            · rcases List.mem_cons.mp ht' with rfl | hmem2
              · exact Or.inl (List.mem_append.mpr
                  (Or.inr (List.mem_singleton.mpr hname.symm)))
              · exact Or.inr ⟨t', hmem2, hname, hfb⟩

theorem compute_iou_zero_of_no_overlap {A B : List ℚ}
    (h : min (A.getD 2 0) (B.getD 2 0) - max (A.getD 0 0) (B.getD 0 0) ≤ 0 ∨
         min (A.getD 3 0) (B.getD 3 0) - max (A.getD 1 0) (B.getD 1 0) ≤ 0) :
    compute_iou A B = 0 := by
  rw [compute_iou_def]
  rcases h with h | h
  · rw [max_eq_left h, zero_mul, zero_div]
  · rw [max_eq_left h, mul_zero, zero_div]

theorem draw_detections_run (detections : DetectionsDict) (labels : List String)
    (tr : List (List ℚ) → List STrack) (target_labels : Option (List String))
    (ld epo : Bool) (m : LoiteringDetectionManager) (pci : ℤ)
    (hne : dets_for_tracker detections (target_class_indices labels
      (target_labels.getD ["person", "car"])) ≠ []) :
    ∃ (m' : LoiteringDetectionManager) (extra : List LEvent) (ids : List ℤ),
      draw_detections detections labels (some tr) target_labels ld (some m) epo pci
        = (some (m'.cleanup_missing_tracks ids),
           LEvent.update_frame_count ::
             (extra ++ [LEvent.cleanup_missing_tracks ids]))
      ∧ (∀ e ∈ extra, (∃ i, e = LEvent.update_track i) ∨
          (∃ i, e = LEvent.is_loitering i))
      ∧ m'.current_frame = m.current_frame + 1
      ∧ m'.frame_threshold = m.frame_threshold
      ∧ (∀ x : ℤ, x ∈ ids ↔ ∃ t ∈ tr (dets_for_tracker detections
            (target_class_indices labels (target_labels.getD ["person", "car"]))),
          t.track_id = x ∧ find_best_matching_detection_index t.tlbr
            (draw_filtered_boxes detections (target_class_indices labels
              (target_labels.getD ["person", "car"]))) ≠ none) := by
  obtain ⟨m', extra, ids', hfold, hev, hcf, hft, hmem⟩ :=
    trackStep_foldl_spec
      (draw_filtered_boxes detections (target_class_indices labels
        (target_labels.getD ["person", "car"])))
      (draw_filtered_classes detections (target_class_indices labels
        (target_labels.getD ["person", "car"])))
      ld epo pci
      (tr (dets_for_tracker detections (target_class_indices labels
        (target_labels.getD ["person", "car"]))))
      m.update_frame_count [LEvent.update_frame_count] []
  refine ⟨m', extra, ids', ?_, hev, hcf, hft, ?_⟩
  · unfold draw_detections
    dsimp only
    rw [if_neg (by simp only [List.isEmpty_iff]; exact hne)]
    rw [hfold]
    rfl
  · intro x
    rw [hmem x]
    simp

/-- C4 (amended): on every frame processed in the tracker-enabled path with
a loitering manager in which at least one detection passes the target-class
filter, `update_frame_count` appears exactly once in the manager call
trace, as its very first event — before every `update_track`/`is_loitering`
call — and the returned manager's frame counter has advanced by one.  On a
frame where no detections pass the filter, `draw_detections` returns before
the tracker and the manager are invoked, so the counter does not advance
(see the counterexample against the original claim). -/
theorem C4_advance_frame (detections : DetectionsDict) (labels : List String)
    (tr : List (List ℚ) → List STrack) (target_labels : Option (List String))
    (ld epo : Bool) (m : LoiteringDetectionManager) (pci : ℤ)
    (hne : dets_for_tracker detections (target_class_indices labels
      (target_labels.getD ["person", "car"])) ≠ []) :
    (∃ tl, (draw_detections detections labels (some tr) target_labels ld (some m)
        epo pci).2 = LEvent.update_frame_count :: tl
      ∧ LEvent.update_frame_count ∉ tl)
    ∧ ∃ m'', (draw_detections detections labels (some tr) target_labels ld
        (some m) epo pci).1 = some m''
      ∧ m''.current_frame = m.current_frame + 1 := by
  obtain ⟨m', extra, ids, heq, hev, hcf, hft, hmem⟩ :=
    draw_detections_run detections labels tr target_labels ld epo m pci hne
  constructor
  · refine ⟨extra ++ [LEvent.cleanup_missing_tracks ids], by rw [heq], ?_⟩
    intro hcontra
    rcases List.mem_append.mp hcontra with h1 | h2
    · rcases hev _ h1 with ⟨i, hi⟩ | ⟨i, hi⟩ <;> exact LEvent.noConfusion hi
    · rw [List.mem_singleton] at h2
      exact LEvent.noConfusion h2
  · refine ⟨m'.cleanup_missing_tracks ids, by rw [heq], ?_⟩
    rw [(cleanup_fields m' ids).1, hcf]

/-- Witness for C4: a concrete frame with one passing person detection and
one returned track; the trace starts with the single frame-count update and
the counter advances. -/
theorem C4_witness :
    (∃ tl, (draw_detections ⟨[[0, 0, 10, 10]], [0], [1], 1⟩ ["person"]
        (some (fun _ => [⟨1, [0, 0, 10, 10], 1⟩])) none true
        (some (LoiteringDetectionManager.init 10 30)) false (-1)).2
      = LEvent.update_frame_count :: tl ∧ LEvent.update_frame_count ∉ tl)
    ∧ ∃ m'', (draw_detections ⟨[[0, 0, 10, 10]], [0], [1], 1⟩ ["person"]
        (some (fun _ => [⟨1, [0, 0, 10, 10], 1⟩])) none true
        (some (LoiteringDetectionManager.init 10 30)) false (-1)).1 = some m''
      ∧ m''.current_frame
          = (LoiteringDetectionManager.init 10 30).current_frame + 1 :=
  C4_advance_frame ⟨[[0, 0, 10, 10]], [0], [1], 1⟩ ["person"]
    (fun _ => [⟨1, [0, 0, 10, 10], 1⟩]) none true false
    (LoiteringDetectionManager.init 10 30) (-1) (by decide)

/-- Counterexample for C4 as stated: a processed frame in the
tracker-enabled path with a loitering manager on which no detections pass
the filter (`num_detections = 0`): `draw_detections` returns early, makes
no call on the manager (empty trace) and leaves it unchanged — the frame
counter does not advance on such a frame, contradicting "the current-frame
counter advances on every processed frame, including frames on which no
detections pass the filter". -/
theorem C4_counterexample :
    draw_detections ⟨[], [], [], 0⟩ ["person"]
      (some (fun _ => [⟨7, [0, 0, 10, 10], 1⟩])) none true
      (some (LoiteringDetectionManager.init 10 30)) false (-1)
      = (some (LoiteringDetectionManager.init 10 30), []) := rfl

/-- C5 (amended): on every frame processed in the tracker-enabled path with
a loitering manager in which at least one detection passes the filter,
`cleanup_missing_tracks` is called exactly once, as the very last manager
call (hence after every `update_track` of the frame), and receives exactly
the set of track ids that matched some detection with strictly positive IoU
— not the id of every track returned by the external tracker: a returned
track whose best IoU is zero is skipped and its id is omitted from the set
(see the counterexample against the original claim). -/
theorem C5_reconcile_matched_set (detections : DetectionsDict)
    (labels : List String) (tr : List (List ℚ) → List STrack)
    (target_labels : Option (List String)) (ld epo : Bool)
    (m : LoiteringDetectionManager) (pci : ℤ)
    (hne : dets_for_tracker detections (target_class_indices labels
      (target_labels.getD ["person", "car"])) ≠ []) :
    ∃ (pre : List LEvent) (ids : List ℤ),
      (draw_detections detections labels (some tr) target_labels ld (some m)
        epo pci).2 = pre ++ [LEvent.cleanup_missing_tracks ids]
      ∧ (∀ l, LEvent.cleanup_missing_tracks l ∉ pre)
      ∧ (∀ x : ℤ, x ∈ ids ↔ ∃ t ∈ tr (dets_for_tracker detections
            (target_class_indices labels (target_labels.getD ["person", "car"]))),
          t.track_id = x ∧ find_best_matching_detection_index t.tlbr
            (draw_filtered_boxes detections (target_class_indices labels
              (target_labels.getD ["person", "car"]))) ≠ none) := by
  obtain ⟨m', extra, ids, heq, hev, hcf, hft, hmem⟩ :=
    draw_detections_run detections labels tr target_labels ld epo m pci hne
  refine ⟨LEvent.update_frame_count :: extra, ids, by rw [heq]; rfl, ?_, hmem⟩
  intro l hl
  rcases List.mem_cons.mp hl with h1 | h2
  · exact LEvent.noConfusion h1
  · rcases hev _ h2 with ⟨i, hi⟩ | ⟨i, hi⟩ <;> exact LEvent.noConfusion hi

/-- Witness for C5: on a concrete frame the trace ends in a single
reconcile call whose id set is characterized by positive-IoU matching. -/
theorem C5_witness :
    ∃ (pre : List LEvent) (ids : List ℤ),
      (draw_detections ⟨[[0, 0, 10, 10]], [0], [1], 1⟩ ["person"]
        (some (fun _ => [⟨3, [0, 0, 10, 10], 1⟩])) none true
        (some (LoiteringDetectionManager.init 10 30)) false (-1)).2
        = pre ++ [LEvent.cleanup_missing_tracks ids]
      ∧ (∀ l, LEvent.cleanup_missing_tracks l ∉ pre)
      ∧ (∀ x : ℤ, x ∈ ids ↔ ∃ t ∈ (fun (_ : List (List ℚ)) =>
            [(⟨3, [0, 0, 10, 10], 1⟩ : STrack)])
              (dets_for_tracker ⟨[[0, 0, 10, 10]], [0], [1], 1⟩
                (target_class_indices ["person"]
                  ((none : Option (List String)).getD ["person", "car"]))),
          t.track_id = x ∧ find_best_matching_detection_index t.tlbr
            (draw_filtered_boxes ⟨[[0, 0, 10, 10]], [0], [1], 1⟩
              (target_class_indices ["person"]
                ((none : Option (List String)).getD ["person", "car"]))) ≠ none) :=
  C5_reconcile_matched_set ⟨[[0, 0, 10, 10]], [0], [1], 1⟩ ["person"]
    (fun _ => [⟨3, [0, 0, 10, 10], 1⟩]) none true false
    (LoiteringDetectionManager.init 10 30) (-1) (by decide)

/-- Counterexample for C5 as stated: a concrete frame where the external
tracker returns two tracks with ids 1 and 2, but track 2 overlaps no
filtered detection (IoU 0), so it is skipped: `cleanup_missing_tracks`
receives only `[1]`, not the complete set of tracker-returned ids — id 2 is
missing from the set passed to reconcile. -/
theorem C5_counterexample :
    (draw_detections ⟨[[0, 0, 10, 10]], [0], [1], 1⟩ ["person"]
      (some (fun _ => [⟨1, [0, 0, 10, 10], 1⟩, ⟨2, [100, 100, 110, 110], 1⟩]))
      none true (some (LoiteringDetectionManager.init 10 30)) false (-1)).2
      = [LEvent.update_frame_count, LEvent.update_track 1, LEvent.is_loitering 1,
         LEvent.cleanup_missing_tracks [1]]
    ∧ (2 : ℤ) ∉ ([1] : List ℤ) := by
  constructor
  · have hiou_pos : 0 < compute_iou [0, 0, 10, 10] [0, 0, 10, 10] := by
      simp [compute_iou]
      norm_num
    have hiou_zero : compute_iou [100, 100, 110, 110] [0, 0, 10, 10] = 0 :=
      compute_iou_zero_of_no_overlap (Or.inl (by norm_num))
    have hfb1 : find_best_matching_detection_index [0, 0, 10, 10]
        [[0, 0, 10, 10]] = some 0 := by
      simp [find_best_matching_detection_index, bestMatchLoop, hiou_pos]
    have hfb2 : find_best_matching_detection_index [100, 100, 110, 110]
        [[0, 0, 10, 10]] = none := by
      simp [find_best_matching_detection_index, bestMatchLoop, hiou_zero]
    have hboxes : List.map
        (fun i => ([[0, 0, 10, 10]] : List (List ℚ))[i]?.getD []) (List.range 1)
        = [[0, 0, 10, 10]] := by
      simp [List.range_succ]
    simp [draw_detections, dets_for_tracker, draw_filtered_boxes,
      draw_filtered_classes, draw_filtered_indices, draw_filtered_scores,
      target_class_indices, trackStep, hboxes, hfb1, hfb2, is_loitering_snd,
      List.range_succ]
  · decide
